import Mathlib

/-!
Verification development for the kbnf core: the `Vocabulary` byte-indexed
token structure (src/kbnf/src/vocabulary.rs) and the grammar sizing
analysis / construction pipeline (src/kbnf/src/utils.rs, config.rs).

Machine integers are modelled as `Nat`; `u8` values are naturals (< 256
where it matters), `u32` token ids are naturals, and wrap-around is made
explicit with `% 2^24` where the 3-byte little-endian id encoding matters.
Hash maps (`AHashMap`) are modelled as association lists; map lookup is
`lookupList`, and the map-key uniqueness invariant appears as a `Nodup`
hypothesis on the key projection.
-/

/-- Association-list lookup, modelling `AHashMap::get`. -/
def lookupList {α β : Type} [DecidableEq α] : List (α × β) → α → Option β
  | [], _ => none
  | (k, v) :: rest, a => if a = k then some v else lookupList rest a

theorem lookupList_eq_some_of_mem {α β : Type} [DecidableEq α]
    {l : List (α × β)} {a : α} {b : β}
    (hnd : (l.map Prod.fst).Nodup) (h : (a, b) ∈ l) :
    lookupList l a = some b := by
  induction l with
  | nil => cases h
  | cons p rest ih =>
    obtain ⟨k, v⟩ := p
    simp only [List.map_cons, List.nodup_cons] at hnd
    rcases List.mem_cons.mp h with heq | hmem
    · cases heq
      simp [lookupList]
    · have hak : a ≠ k := by
        intro hak
        subst hak
        exact hnd.1 (List.mem_map.mpr ⟨(a, b), hmem, rfl⟩)
      simp [lookupList, hak, ih hnd.2 hmem]

theorem lookupList_eq_none_of_not_mem {α β : Type} [DecidableEq α]
    {l : List (α × β)} {a : α} (h : a ∉ l.map Prod.fst) :
    lookupList l a = none := by
  induction l with
  | nil => rfl
  | cons p rest ih =>
    obtain ⟨k, v⟩ := p
    simp only [List.map_cons, List.mem_cons] at h
    push_neg at h
    simp [lookupList, h.1, ih h.2]

/-! ## Vocabulary (src/kbnf/src/vocabulary.rs) -/

/-- `const TOKEN_SEPARATOR: u8 = 0xFF;` -/
def TOKEN_SEPARATOR : Nat := 0xFF

/-- `pub struct Token(pub Box<[u8]>);` — a token is its raw byte sequence. -/
structure Token where
  bytes : List Nat
deriving DecidableEq

/-- The low 3 bytes of a token id in little-endian order:
`token_id.to_le_bytes().into_iter().take(3)`. -/
def le3 (token_id : Nat) : List Nat :=
  [token_id % 256, token_id / 256 % 256, token_id / 65536 % 256]

/-- The contiguous run emitted for one normal token in `Vocabulary::new`:
`[TOKEN_SEPARATOR][token_id low 3 bytes LE][token bytes verbatim]`. -/
def encodeToken (token_id : Nat) (t : Token) : List Nat :=
  TOKEN_SEPARATOR :: (le3 token_id ++ t.bytes)

/-- The per-first-byte bucketing pass of `Vocabulary::new`: a token lands in
bucket `b` exactly when it is non-empty and its first byte is `b`
(`temp[first_byte as usize].push((token_id, token))`). List order models the
map iteration order. -/
def bucketFor (id_to_token : List (Nat × Token)) (b : Nat) : List (Nat × Token) :=
  id_to_token.filter (fun p => p.2.bytes.head? = some b)

/-- The inner loop of `Vocabulary::new` over one bucket: tokens containing
`TOKEN_SEPARATOR` are diverted to the separator list, the rest are encoded
into the bucket's row. Returns (row bytes, diverted tokens), both in
iteration order. -/
def processBucket : List (Nat × Token) → List Nat × List (Nat × Token)
  | [] => ([], [])
  | (token_id, t) :: rest =>
    let r := processBucket rest
    if TOKEN_SEPARATOR ∈ t.bytes then (r.1, (token_id, t) :: r.2)
    else (encodeToken token_id t ++ r.1, r.2)

/-- `pub struct Vocabulary` — the three maps plus the first-byte index
(256 rows of the jagged array) and the separator-token overflow list. -/
structure Vocabulary where
  token_to_id : List (Token × Nat)
  id_to_token : List (Nat × Token)
  id_to_token_string : List (Nat × String)
  first_byte_to_normal_tokens : List (List Nat)
  tokens_containing_separators : List (Nat × Token)
deriving DecidableEq

/-- The construction body of `Vocabulary::new` after the size assertion:
bucket every non-empty token by first byte, encode each bucket into a row,
divert separator-containing tokens. -/
def Vocabulary.build (token_to_id : List (Token × Nat))
    (id_to_token : List (Nat × Token))
    (id_to_token_string : List (Nat × String)) : Vocabulary :=
  { token_to_id := token_to_id
    id_to_token := id_to_token
    id_to_token_string := id_to_token_string
    first_byte_to_normal_tokens :=
      (List.range 256).map (fun b => (processBucket (bucketFor id_to_token b)).1)
    tokens_containing_separators :=
      (List.range 256).flatMap (fun b => (processBucket (bucketFor id_to_token b)).2) }

/-- `Vocabulary::new`: asserts `id_to_token.len() < 0x1000000` (a panic is
modelled as `none`), then builds the structure. -/
def Vocabulary.new (token_to_id : List (Token × Nat))
    (id_to_token : List (Nat × Token))
    (id_to_token_string : List (Nat × String)) : Option Vocabulary :=
  if id_to_token.length < 0x1000000 then
    some (Vocabulary.build token_to_id id_to_token id_to_token_string)
  else none

/-- `Vocabulary::get_token_id_from_token`. -/
def Vocabulary.get_token_id_from_token (v : Vocabulary) (token : Token) : Option Nat :=
  lookupList v.token_to_id token

/-- `Vocabulary::get_token_from_token_id`. -/
def Vocabulary.get_token_from_token_id (v : Vocabulary) (token_id : Nat) : Option Token :=
  lookupList v.id_to_token token_id

/-- `Vocabulary::get_token_string_from_token_id`. -/
def Vocabulary.get_token_string_from_token_id (v : Vocabulary) (token_id : Nat) : Option String :=
  lookupList v.id_to_token_string token_id

/-- `Vocabulary::get_vocab_size`. -/
def Vocabulary.get_vocab_size (v : Vocabulary) : Nat :=
  v.id_to_token.length

/-- `Vocabulary::get_normal_tokens_from_first_byte` hands the iterator the
row of the jagged array for `first_byte`; here we return the row itself. -/
def Vocabulary.get_normal_tokens_from_first_byte (v : Vocabulary) (first_byte : Nat) : List Nat :=
  (v.first_byte_to_normal_tokens[first_byte]?).getD []

/-- `Vocabulary::get_tokens_containing_separators`. -/
def Vocabulary.get_tokens_containing_separators (v : Vocabulary) : List (Nat × Token) :=
  v.tokens_containing_separators

/-- `enum TokenIterItem`. The decoded id that `TokensIter::next` stores in
`current_token_id` (observable through `get_current_token_id`) is carried on
the `NewToken` marker. -/
inductive TokenIterItem
  | TokenByte (b : Nat)
  | NewToken (token_id : Nat)
deriving DecidableEq

/-- Runs `TokensIter::next` (the `Iterator` impl for `TokensIter`) to
exhaustion on a row. `none` models a panic: an `unwrap` on a missing byte
after a separator, or `NonMaxU32::new` receiving `u32::MAX`. On a separator
byte it consumes exactly the 3 following id bytes and decodes them
little-endian (`u32::from_le_bytes` with a zero high byte); any other byte
is yielded as a token byte. -/
def iterRun : List Nat → Option (List TokenIterItem)
  | [] => some []
  | x :: rest =>
    if x = TOKEN_SEPARATOR then
      match rest with
      | b0 :: b1 :: b2 :: rest2 =>
        let token_id := b0 + 256 * b1 + 65536 * b2
        if token_id = 4294967295 then none
        else (iterRun rest2).map (fun l => TokenIterItem.NewToken token_id :: l)
      | _ => none
    else (iterRun rest).map (fun l => TokenIterItem.TokenByte x :: l)

/-- Worker for `groupTokens`: `cur` is the token currently being collected
(its decoded id and its bytes so far, in reverse). -/
def groupTokensAux : Option (Nat × List Nat) → List TokenIterItem → List (Nat × List Nat)
  | cur, [] =>
    (match cur with
     | some (i, bs) => [(i, bs.reverse)]
     | none => [])
  | cur, TokenIterItem.NewToken token_id :: rest =>
    (match cur with
     | some (i, bs) => [(i, bs.reverse)]
     | none => []) ++ groupTokensAux (some (token_id, [])) rest
  | cur, TokenIterItem.TokenByte b :: rest =>
    (match cur with
     | some (i, bs) => groupTokensAux (some (i, b :: bs)) rest
     | none => groupTokensAux none rest)

/-- Groups the item stream yielded by the iterator into (decoded id, token
bytes) pairs: each `NewToken` marker opens a token owning the following run
of `TokenByte` items. This is how the consumer reads the stream (cf. the
`Debug` impl, which pairs `get_current_token_id` with the yielded bytes). -/
def groupTokens (l : List TokenIterItem) : List (Nat × List Nat) :=
  groupTokensAux none l

/-! ## Simplified grammar and sizing analysis (src/kbnf/src/utils.rs) -/

/-- `ebnf::node::FinalNode`: a symbol of an alternative — terminal bytes,
a nonterminal reference, a compiled regex, or an except construct with an
optional repetition bound (the variants the sizing scans distinguish). -/
inductive FinalNode
  | Terminal (i : Nat)
  | Nonterminal (i : Nat)
  | RegexString (i : Nat)
  | EXCEPT (i : Nat) (r : Option Nat)
deriving DecidableEq

/-- One alternative of a rule: `production.concatenations`. -/
structure Production where
  concatenations : List FinalNode
deriving DecidableEq

/-- One nonterminal's rule: `rule.alternations`. -/
structure Rule where
  alternations : List Production
deriving DecidableEq

/-- `ebnf::regex::FiniteStateAutomaton`: the single `Dfa` variant, observed
only through `dfa.state_len()`. -/
inductive FiniteStateAutomaton
  | Dfa (state_len : Nat)
deriving DecidableEq

/-- `dfa.state_len()` on the `Dfa` variant. -/
def FiniteStateAutomaton.state_len : FiniteStateAutomaton → Nat
  | Dfa n => n

/-- `ebnf::simplified_grammar::SimplifiedGrammar`, with the fields the
sizing scans read: the rules, the interned terminal strings (as byte
sequences, iterated in interner order), and the compiled regex / except
automata. -/
structure SimplifiedGrammar where
  expressions : List Rule
  interned_strings_terminals : List (List Nat)
  id_to_regex : List FiniteStateAutomaton
  id_to_excepted : List FiniteStateAutomaton
deriving DecidableEq

/-- `find_max_repetition_from_ebnf_grammar`: fold over all symbols of all
alternatives, taking the max of bounded `EXCEPT` repetition counts. -/
def find_max_repetition_from_ebnf_grammar (grammar : SimplifiedGrammar) : Nat :=
  grammar.expressions.foldl
    (fun m rule =>
      rule.alternations.foldl
        (fun m production =>
          production.concatenations.foldl
            (fun m symbol =>
              match symbol with
              | FinalNode.EXCEPT _ (some r) => Nat.max m r
              | _ => m)
            m)
        m)
    0

/-- `find_max_state_id_from_ebnf_grammar`: fold the max over interned
terminal byte lengths, then over regex automaton state counts, then over
except automaton state counts. -/
def find_max_state_id_from_ebnf_grammar (grammar : SimplifiedGrammar) : Nat :=
  let m1 := grammar.interned_strings_terminals.foldl (fun m s => Nat.max m s.length) 0
  let m2 := grammar.id_to_regex.foldl (fun m a => Nat.max m a.state_len) m1
  grammar.id_to_excepted.foldl (fun m a => Nat.max m a.state_len) m2

/-- `find_max_dotted_position_from_ebnf_grammar`: fold the max of
`concatenations.len()` over all alternatives of all rules. -/
def find_max_dotted_position_from_ebnf_grammar (grammar : SimplifiedGrammar) : Nat :=
  grammar.expressions.foldl
    (fun m rule =>
      rule.alternations.foldl (fun m production => Nat.max m production.concatenations.length) m)
    0

/-- `find_max_production_id_from_ebnf_grammar`: fold the max of
`alternations.len()` over all rules. -/
def find_max_production_id_from_ebnf_grammar (grammar : SimplifiedGrammar) : Nat :=
  grammar.expressions.foldl (fun m rule => Nat.max m rule.alternations.length) 0

/-! ## Configuration and the construction pipeline
(src/kbnf/src/config.rs, src/kbnf/src/utils.rs) -/

/-- Modelled from the spec: `FiniteStateAutomatonConfig` of the external
ebnf crate (not under src/) — automaton construction limits (memory
ceiling), single `Dfa` kind. -/
structure RegexCfg where
  max_memory_usage : Option Nat
deriving DecidableEq

/-- `ebnf::config::CompressionConfig` (external crate): the
minimum-terminals compression threshold. -/
structure CompressionCfg where
  min_terminals : Nat
deriving DecidableEq

/-- `InternalConfig` (config.rs), restricted to the fields
`construct_ebnf_grammar` consumes. -/
structure InternalConfig where
  regex_config : RegexCfg
  compression_config : CompressionCfg
  excepted_config : RegexCfg
  start_nonterminal : String
deriving DecidableEq

/-- `GrammarError` (grammar.rs, surfaced through utils.rs): a parse error
carrying (description, span) pairs, a validation error naming the offending
symbol, or an automaton-construction error. -/
inductive GrammarError
  | ParseError (errors : List (String × String))
  | ValidationError (symbol : String)
  | AutomatonError (limit : Nat)
deriving DecidableEq

/-- `construct_ebnf_grammar` (utils.rs lines 22–50): parse the text
(mapping parse-error descriptions into the error type), validate against
the start nonterminal and regex config, then simplify with the compression
and except configs (the anchored start configuration is a constant).
Modelled from the spec: the three stage bodies (`ebnf::get_grammar`,
`validate_grammar`, `simplify_grammar`) live in the external ebnf crate and
are taken here as arbitrary pure stage functions over an abstract parsed
form `α`. -/
def construct_ebnf_grammar {α : Type}
    (get_grammar : String → Except (List (String × String)) α)
    (validate_grammar : α → String → RegexCfg → Except GrammarError α)
    (simplify_grammar : α → CompressionCfg → RegexCfg → SimplifiedGrammar)
    (input : String) (config : InternalConfig) : Except GrammarError SimplifiedGrammar :=
  match get_grammar input with
  | Except.error e => Except.error (GrammarError.ParseError e)
  | Except.ok g =>
    match validate_grammar g config.start_nonterminal config.regex_config with
    | Except.error e => Except.error e
    | Except.ok g2 =>
      Except.ok (simplify_grammar g2 config.compression_config config.excepted_config)

/-! ## Characterization of the first-byte rows and their decoding -/

/-- The tokens of a bucket that stay in the row (no separator byte). -/
def goodTokens (l : List (Nat × Token)) : List (Nat × Token) :=
  l.filter (fun p => ¬ TOKEN_SEPARATOR ∈ p.2.bytes)

/-- The tokens of a bucket diverted to the separator list. -/
def sepTokens (l : List (Nat × Token)) : List (Nat × Token) :=
  l.filter (fun p => TOKEN_SEPARATOR ∈ p.2.bytes)

theorem processBucket_fst (l : List (Nat × Token)) :
    (processBucket l).1 = (goodTokens l).flatMap (fun p => encodeToken p.1 p.2) := by
  induction l with
  | nil => rfl
  | cons p rest ih =>
    obtain ⟨i, t⟩ := p
    by_cases h : TOKEN_SEPARATOR ∈ t.bytes <;>
      simp [processBucket, goodTokens, h, goodTokens] at ih ⊢ <;> exact ih

theorem processBucket_snd (l : List (Nat × Token)) :
    (processBucket l).2 = sepTokens l := by
  induction l with
  | nil => rfl
  | cons p rest ih =>
    obtain ⟨i, t⟩ := p
    by_cases h : TOKEN_SEPARATOR ∈ t.bytes <;>
      simp [processBucket, sepTokens, h] at ih ⊢ <;> exact ih

/-- The item stream the iterator yields for one encoded token. -/
def chainFor (p : Nat × Token) : List TokenIterItem :=
  TokenIterItem.NewToken (p.1 % 16777216) :: p.2.bytes.map TokenIterItem.TokenByte

/-- Little-endian 3-byte decoding inverts `le3` up to `% 2^24`. -/
theorem le3_decode (i : Nat) :
    i % 256 + 256 * (i / 256 % 256) + 65536 * (i / 65536 % 256) = i % 16777216 := by
  omega

theorem iterRun_cons_nonsep (x : Nat) (rest : List Nat) (hx : ¬ x = TOKEN_SEPARATOR) :
    iterRun (x :: rest) = (iterRun rest).map (fun l => TokenIterItem.TokenByte x :: l) := by
  cases rest with
  | nil => simp [iterRun, hx]
  | cons y r =>
    cases r with
    | nil => simp [iterRun, hx]
    | cons z r2 =>
      cases r2 with
      | nil => simp [iterRun, hx]
      | cons w r3 => simp [iterRun, hx]

theorem iterRun_cons_sep (b0 b1 b2 : Nat) (rest2 : List Nat)
    (h : ¬ b0 + 256 * b1 + 65536 * b2 = 4294967295) :
    iterRun (TOKEN_SEPARATOR :: b0 :: b1 :: b2 :: rest2) =
      (iterRun rest2).map
        (fun l => TokenIterItem.NewToken (b0 + 256 * b1 + 65536 * b2) :: l) := by
  simp [iterRun, h]

theorem iterRun_append_bytes (bs : List Nat) (rest : List Nat)
    (h : TOKEN_SEPARATOR ∉ bs) :
    iterRun (bs ++ rest) =
      (iterRun rest).map (fun l => bs.map TokenIterItem.TokenByte ++ l) := by
  induction bs with
  | nil => cases hr : iterRun rest <;> simp [hr]
  | cons x bs ih =>
    simp only [List.mem_cons, not_or] at h
    have hx : ¬ x = TOKEN_SEPARATOR := fun hc => h.1 hc.symm
    rw [List.cons_append, iterRun_cons_nonsep x _ hx, ih h.2]
    cases hr : iterRun rest <;> simp [hr]

theorem iterRun_encode (l : List (Nat × Token))
    (h : ∀ p ∈ l, TOKEN_SEPARATOR ∉ p.2.bytes) :
    iterRun (l.flatMap (fun p => encodeToken p.1 p.2)) = some (l.flatMap chainFor) := by
  induction l with
  | nil => rfl
  | cons p rest ih =>
    obtain ⟨i, t⟩ := p
    have hsep : TOKEN_SEPARATOR ∉ t.bytes := h (i, t) (List.mem_cons_self _ _)
    have hrest : ∀ q ∈ rest, TOKEN_SEPARATOR ∉ q.2.bytes :=
      fun q hq => h q (List.mem_cons_of_mem _ hq)
    have hid : ¬ i % 256 + 256 * (i / 256 % 256) + 65536 * (i / 65536 % 256) = 4294967295 := by
      omega
    have hshape : (((i, t) :: rest).flatMap fun p => encodeToken p.1 p.2)
        = TOKEN_SEPARATOR :: (i % 256) :: (i / 256 % 256) :: (i / 65536 % 256) ::
          (t.bytes ++ rest.flatMap fun p => encodeToken p.1 p.2) := by
      simp [encodeToken, le3]
    rw [hshape, iterRun_cons_sep _ _ _ _ hid, iterRun_append_bytes t.bytes _ hsep, ih hrest]
    simp [chainFor, le3_decode]

theorem groupTokensAux_bytes (bs : List Nat) (i : Nat) (acc : List Nat)
    (rest : List TokenIterItem) :
    groupTokensAux (some (i, acc)) (bs.map TokenIterItem.TokenByte ++ rest) =
      groupTokensAux (some (i, bs.reverse ++ acc)) rest := by
  induction bs generalizing acc with
  | nil => simp
  | cons b bs ih =>
    have h1 : groupTokensAux (some (i, acc)) ((b :: bs).map TokenIterItem.TokenByte ++ rest)
        = groupTokensAux (some (i, b :: acc)) (bs.map TokenIterItem.TokenByte ++ rest) := rfl
    rw [h1, ih (b :: acc)]
    simp

theorem groupTokensAux_chain (l : List (Nat × Token)) (cur : Option (Nat × List Nat)) :
    groupTokensAux cur (l.flatMap chainFor) =
      (match cur with
       | some (i, bs) => [(i, bs.reverse)]
       | none => []) ++ l.map (fun p => (p.1 % 16777216, p.2.bytes)) := by
  induction l generalizing cur with
  | nil =>
    cases cur with
    | none => rfl
    | some c => obtain ⟨i, bs⟩ := c; rfl
  | cons p rest ih =>
    obtain ⟨j, t⟩ := p
    have hshape : (((j, t) :: rest).flatMap chainFor)
        = TokenIterItem.NewToken (j % 16777216) ::
          (t.bytes.map TokenIterItem.TokenByte ++ rest.flatMap chainFor) := by
      simp [chainFor]
    cases cur with
    | none =>
      rw [hshape]
      have h1 : groupTokensAux none (TokenIterItem.NewToken (j % 16777216) ::
            (t.bytes.map TokenIterItem.TokenByte ++ rest.flatMap chainFor))
          = groupTokensAux (some (j % 16777216, []))
              (t.bytes.map TokenIterItem.TokenByte ++ rest.flatMap chainFor) := rfl
      rw [h1, groupTokensAux_bytes, ih]
      simp
    | some c =>
      obtain ⟨i, bs⟩ := c
      rw [hshape]
      have h1 : groupTokensAux (some (i, bs)) (TokenIterItem.NewToken (j % 16777216) ::
            (t.bytes.map TokenIterItem.TokenByte ++ rest.flatMap chainFor))
          = [(i, bs.reverse)] ++ groupTokensAux (some (j % 16777216, []))
              (t.bytes.map TokenIterItem.TokenByte ++ rest.flatMap chainFor) := rfl
      rw [h1, groupTokensAux_bytes, ih]
      simp

theorem groupTokens_chain (l : List (Nat × Token)) :
    groupTokens (l.flatMap chainFor) = l.map (fun p => (p.1 % 16777216, p.2.bytes)) := by
  rw [groupTokens, groupTokensAux_chain]
  rfl

theorem mem_goodTokens {l : List (Nat × Token)} {p : Nat × Token} (h : p ∈ goodTokens l) :
    p ∈ l ∧ TOKEN_SEPARATOR ∉ p.2.bytes := by
  unfold goodTokens at h
  simpa using List.mem_filter.mp h

theorem goodTokens_mem {l : List (Nat × Token)} {p : Nat × Token}
    (h : p ∈ l) (hsep : TOKEN_SEPARATOR ∉ p.2.bytes) : p ∈ goodTokens l := by
  unfold goodTokens
  exact List.mem_filter.mpr ⟨h, by simpa using hsep⟩

theorem mem_sepTokens {l : List (Nat × Token)} {p : Nat × Token} (h : p ∈ sepTokens l) :
    p ∈ l ∧ TOKEN_SEPARATOR ∈ p.2.bytes := by
  unfold sepTokens at h
  simpa using List.mem_filter.mp h

theorem mem_bucketFor {l : List (Nat × Token)} {p : Nat × Token} {b : Nat}
    (h : p ∈ bucketFor l b) : p ∈ l ∧ p.2.bytes.head? = some b := by
  unfold bucketFor at h
  simpa using List.mem_filter.mp h

theorem bucketFor_mem {l : List (Nat × Token)} {p : Nat × Token} {b : Nat}
    (h : p ∈ l) (hb : p.2.bytes.head? = some b) : p ∈ bucketFor l b := by
  unfold bucketFor
  exact List.mem_filter.mpr ⟨h, by simpa using hb⟩

theorem goodBucket_sublist (l : List (Nat × Token)) (b : Nat) :
    List.Sublist (goodTokens (bucketFor l b)) l :=
  (List.filter_sublist _).trans (List.filter_sublist _)

theorem new_eq_some {t2i : List (Token × Nat)} {i2t : List (Nat × Token)}
    {strs : List (Nat × String)} {v : Vocabulary}
    (h : Vocabulary.new t2i i2t strs = some v) :
    v = Vocabulary.build t2i i2t strs ∧ i2t.length < 16777216 := by
  unfold Vocabulary.new at h
  split at h
  · exact ⟨(Option.some_inj.mp h).symm, by assumption⟩
  · exact absurd h (by simp)

theorem build_row (t2i : List (Token × Nat)) (i2t : List (Nat × Token))
    (strs : List (Nat × String)) (b : Nat) (hb : b < 256) :
    (Vocabulary.build t2i i2t strs).get_normal_tokens_from_first_byte b
      = (processBucket (bucketFor i2t b)).1 := by
  unfold Vocabulary.build Vocabulary.get_normal_tokens_from_first_byte
  simp [List.getElem?_range, hb]

theorem build_row_oob (t2i : List (Token × Nat)) (i2t : List (Nat × Token))
    (strs : List (Nat × String)) (b : Nat) (hb : 256 ≤ b) :
    (Vocabulary.build t2i i2t strs).get_normal_tokens_from_first_byte b = [] := by
  unfold Vocabulary.build Vocabulary.get_normal_tokens_from_first_byte
  rw [List.getElem?_eq_none (by simpa using hb)]
  rfl

/-- Master decode lemma: the first-byte row of a constructed vocabulary
iterates, without panicking, to exactly the item chain of its bucket's
separator-free tokens. -/
theorem decode_row (t2i : List (Token × Nat)) (i2t : List (Nat × Token))
    (strs : List (Nat × String)) (b : Nat) (hb : b < 256) :
    iterRun ((Vocabulary.build t2i i2t strs).get_normal_tokens_from_first_byte b)
      = some ((goodTokens (bucketFor i2t b)).flatMap chainFor) := by
  rw [build_row _ _ _ _ hb, processBucket_fst]
  exact iterRun_encode _ (fun p hp => (mem_goodTokens hp).2)

theorem count_flatMap_nat {α β : Type} [BEq β] (l : List α) (f : α → List β) (x : β) :
    (l.flatMap f).count x = (l.map (fun a => (f a).count x)).sum := by
  induction l with
  | nil => rfl
  | cons a l ih => simp [List.count_append, ih]

theorem count_eq_one_of_mem_nodup {α : Type} [BEq α] [LawfulBEq α] {l : List α} {a : α}
    (hnd : l.Nodup) (h : a ∈ l) : l.count a = 1 := by
  induction l with
  | nil => cases h
  | cons x l ih =>
    rw [List.nodup_cons] at hnd
    rcases List.mem_cons.mp h with rfl | hmem
    · rw [List.count_cons_self, List.count_eq_zero.mpr hnd.1]
    · rw [List.count_cons, ih hnd.2 hmem]
      have hne : ¬ x = a := by
        intro hc
        subst hc
        exact hnd.1 hmem
      simp [hne]

theorem sum_map_range_eq_single (f : Nat → Nat) (n h : Nat) (hh : h < n)
    (hf : ∀ b, b ≠ h → f b = 0) :
    ((List.range n).map f).sum = f h := by
  induction n with
  | zero => omega
  | succ n ih =>
    rw [List.range_succ, List.map_append, List.sum_append]
    by_cases hcase : h = n
    · subst hcase
      have hz : ((List.range h).map f).sum = 0 := by
        apply List.sum_eq_zero
        intro x hx
        obtain ⟨b, hb, rfl⟩ := List.mem_map.mp hx
        exact hf b (by have := List.mem_range.mp hb; omega)
      simp [hz]
    · have hh2 : h < n := by omega
      rw [ih hh2]
      simp [hf n (fun hc => hcase hc.symm)]

/-! ## Fold/max characterizations for the sizing scans -/

theorem natMax_assoc (a b c : Nat) : Nat.max (Nat.max a b) c = Nat.max a (Nat.max b c) := by
  simp only [Nat.max_def]
  repeat' split
  all_goals omega

theorem natMax_zero (a : Nat) : Nat.max 0 a = a := by
  simp only [Nat.max_def]
  split <;> omega

theorem natMax_left (a b : Nat) : a ≤ Nat.max a b := by
  simp only [Nat.max_def]
  split <;> omega

theorem natMax_right (a b : Nat) : b ≤ Nat.max a b := by
  simp only [Nat.max_def]
  split <;> omega

theorem natMax_le_max {a b c d : Nat} (h1 : a ≤ b) (h2 : c ≤ d) :
    Nat.max a c ≤ Nat.max b d := by
  simp only [Nat.max_def]
  repeat' split
  all_goals omega

/-- Maximum of a list of naturals (0 for the empty list). -/
def maxList (l : List Nat) : Nat := l.foldr Nat.max 0

theorem maxList_append (a b : List Nat) :
    maxList (a ++ b) = Nat.max (maxList a) (maxList b) := by
  induction a with
  | nil =>
    simp only [List.nil_append, maxList, List.foldr_nil]
    rw [natMax_zero]
  | cons x l ih =>
    simp only [List.cons_append, maxList, List.foldr_cons] at ih ⊢
    rw [ih, natMax_assoc]

theorem foldl_max_eq {α : Type} (f : α → Nat) (l : List α) (a : Nat) :
    l.foldl (fun m x => Nat.max m (f x)) a = Nat.max a (maxList (l.map f)) := by
  induction l generalizing a with
  | nil =>
    simp only [List.foldl_nil, List.map_nil, maxList, List.foldr_nil, Nat.max_def]
    split <;> omega
  | cons x l ih =>
    simp only [List.foldl_cons, List.map_cons, maxList, List.foldr_cons] at ih ⊢
    rw [ih, natMax_assoc]

/-- The longest-alternative bound contributed by one rule. -/
def ruleDotted (r : Rule) : Nat :=
  maxList (r.alternations.map (fun production => production.concatenations.length))

theorem dotted_eq (g : SimplifiedGrammar) :
    find_max_dotted_position_from_ebnf_grammar g = maxList (g.expressions.map ruleDotted) := by
  unfold find_max_dotted_position_from_ebnf_grammar
  have hfun : (fun (m : Nat) (rule : Rule) =>
      rule.alternations.foldl (fun m production => Nat.max m production.concatenations.length) m)
      = fun (m : Nat) (rule : Rule) => Nat.max m (ruleDotted rule) := by
    funext m rule
    rw [foldl_max_eq]
    rfl
  rw [hfun, foldl_max_eq, natMax_zero]

theorem production_eq (g : SimplifiedGrammar) :
    find_max_production_id_from_ebnf_grammar g
      = maxList (g.expressions.map (fun r => r.alternations.length)) := by
  unfold find_max_production_id_from_ebnf_grammar
  rw [foldl_max_eq, natMax_zero]

/-! ## The claims -/

/-- Spec-form of the max-state-id bound, following the claim's words: the
largest number of states among all terminal-matching automata (a literal
terminal is driven like a tiny automaton with one state per byte, so it
contributes the byte length of the interned terminal string), embedded-regex
automata, and except automata compiled into the grammar. -/
def max_state_id_spec (g : SimplifiedGrammar) : Nat :=
  Nat.max (maxList (g.interned_strings_terminals.map List.length))
    (Nat.max (maxList (g.id_to_regex.map FiniteStateAutomaton.state_len))
      (maxList (g.id_to_excepted.map FiniteStateAutomaton.state_len)))

/-- C6: for every simplified grammar, `find_max_state_id_from_ebnf_grammar`
returns the largest number of states among all terminal-matching,
embedded-regex, and except automata, the terminal-matching ones
contributing the byte length of the longest interned terminal string. -/
theorem C6_max_state_id (g : SimplifiedGrammar) :
    find_max_state_id_from_ebnf_grammar g = max_state_id_spec g := by
  unfold find_max_state_id_from_ebnf_grammar max_state_id_spec
  rw [foldl_max_eq, foldl_max_eq, foldl_max_eq, natMax_zero, natMax_assoc]

/-- C7: grammar compilation is deterministic — for any pure parse,
validate, and simplify stages, identical grammar text and configuration
produce identical simplified grammars from `construct_ebnf_grammar`, and in
particular identical outputs from all four sizing-analysis functions. -/
theorem C7_determinism {α : Type}
    (get_grammar : String → Except (List (String × String)) α)
    (validate_grammar : α → String → RegexCfg → Except GrammarError α)
    (simplify_grammar : α → CompressionCfg → RegexCfg → SimplifiedGrammar)
    (input1 input2 : String) (c1 c2 : InternalConfig)
    (hin : input1 = input2) (hc : c1 = c2) :
    construct_ebnf_grammar get_grammar validate_grammar simplify_grammar input1 c1
      = construct_ebnf_grammar get_grammar validate_grammar simplify_grammar input2 c2 ∧
    ∀ g1 g2,
      construct_ebnf_grammar get_grammar validate_grammar simplify_grammar input1 c1
        = Except.ok g1 →
      construct_ebnf_grammar get_grammar validate_grammar simplify_grammar input2 c2
        = Except.ok g2 →
      find_max_repetition_from_ebnf_grammar g1 = find_max_repetition_from_ebnf_grammar g2 ∧
      find_max_state_id_from_ebnf_grammar g1 = find_max_state_id_from_ebnf_grammar g2 ∧
      find_max_dotted_position_from_ebnf_grammar g1
        = find_max_dotted_position_from_ebnf_grammar g2 ∧
      find_max_production_id_from_ebnf_grammar g1
        = find_max_production_id_from_ebnf_grammar g2 := by
  subst hin
  subst hc
  refine ⟨rfl, ?_⟩
  intro g1 g2 h1 h2
  rw [h1] at h2
  injection h2 with h3
  subst h3
  exact ⟨rfl, rfl, rfl, rfl⟩

theorem C7_determinism_witness :
    "start ::= a;" = "start ::= a;" ∧
    (InternalConfig.mk (RegexCfg.mk none) (CompressionCfg.mk 5) (RegexCfg.mk none) "start")
      = InternalConfig.mk (RegexCfg.mk none) (CompressionCfg.mk 5) (RegexCfg.mk none) "start" ∧
    (construct_ebnf_grammar (fun _ => (Except.ok () : Except (List (String × String)) Unit))
        (fun g _ _ => Except.ok g) (fun _ _ _ => SimplifiedGrammar.mk [] [] [] [])
        "start ::= a;"
        (InternalConfig.mk (RegexCfg.mk none) (CompressionCfg.mk 5) (RegexCfg.mk none) "start")
      = construct_ebnf_grammar (fun _ => (Except.ok () : Except (List (String × String)) Unit))
        (fun g _ _ => Except.ok g) (fun _ _ _ => SimplifiedGrammar.mk [] [] [] [])
        "start ::= a;"
        (InternalConfig.mk (RegexCfg.mk none) (CompressionCfg.mk 5) (RegexCfg.mk none) "start") ∧
    ∀ g1 g2,
      construct_ebnf_grammar (fun _ => (Except.ok () : Except (List (String × String)) Unit))
        (fun g _ _ => Except.ok g) (fun _ _ _ => SimplifiedGrammar.mk [] [] [] [])
        "start ::= a;"
        (InternalConfig.mk (RegexCfg.mk none) (CompressionCfg.mk 5) (RegexCfg.mk none) "start")
        = Except.ok g1 →
      construct_ebnf_grammar (fun _ => (Except.ok () : Except (List (String × String)) Unit))
        (fun g _ _ => Except.ok g) (fun _ _ _ => SimplifiedGrammar.mk [] [] [] [])
        "start ::= a;"
        (InternalConfig.mk (RegexCfg.mk none) (CompressionCfg.mk 5) (RegexCfg.mk none) "start")
        = Except.ok g2 →
      find_max_repetition_from_ebnf_grammar g1 = find_max_repetition_from_ebnf_grammar g2 ∧
      find_max_state_id_from_ebnf_grammar g1 = find_max_state_id_from_ebnf_grammar g2 ∧
      find_max_dotted_position_from_ebnf_grammar g1
        = find_max_dotted_position_from_ebnf_grammar g2 ∧
      find_max_production_id_from_ebnf_grammar g1
        = find_max_production_id_from_ebnf_grammar g2) :=
  ⟨rfl, rfl,
    C7_determinism (fun _ => (Except.ok () : Except (List (String × String)) Unit))
      (fun g _ _ => Except.ok g) (fun _ _ _ => SimplifiedGrammar.mk [] [] [] [])
      "start ::= a;" "start ::= a;"
      (InternalConfig.mk (RegexCfg.mk none) (CompressionCfg.mk 5) (RegexCfg.mk none) "start")
      (InternalConfig.mk (RegexCfg.mk none) (CompressionCfg.mk 5) (RegexCfg.mk none) "start")
      rfl rfl⟩

/-- C8: the sizing reductions are monotone — appending to a rule an
alternative whose symbol sequence is longer than the current maximum never
decreases `find_max_dotted_position_from_ebnf_grammar`, and appending a
rule with more alternatives than any existing one never decreases
`find_max_production_id_from_ebnf_grammar`. -/
theorem C8_sizing_monotone (g gd gp : SimplifiedGrammar) (l1 l2 : List Rule)
    (r : Rule) (p : Production) (nr : Rule)
    (hg : g.expressions = l1 ++ r :: l2)
    (hgd : gd.expressions = l1 ++ Rule.mk (r.alternations ++ [p]) :: l2)
    (hlong : find_max_dotted_position_from_ebnf_grammar g < p.concatenations.length)
    (hgp : gp.expressions = g.expressions ++ [nr])
    (hmore : find_max_production_id_from_ebnf_grammar g < nr.alternations.length) :
    find_max_dotted_position_from_ebnf_grammar g
      ≤ find_max_dotted_position_from_ebnf_grammar gd ∧
    find_max_production_id_from_ebnf_grammar g
      ≤ find_max_production_id_from_ebnf_grammar gp := by
  constructor
  · rw [dotted_eq g, dotted_eq gd, hg, hgd, List.map_append, List.map_append,
      List.map_cons, List.map_cons, maxList_append, maxList_append]
    apply natMax_le_max (le_refl _)
    show Nat.max (ruleDotted r) (maxList (l2.map ruleDotted))
      ≤ Nat.max (ruleDotted (Rule.mk (r.alternations ++ [p]))) (maxList (l2.map ruleDotted))
    apply natMax_le_max ?_ (le_refl _)
    unfold ruleDotted
    show maxList (r.alternations.map fun production => production.concatenations.length) ≤ _
    rw [List.map_append, maxList_append]
    exact natMax_left _ _
  · rw [production_eq g, production_eq gp, hgp, List.map_append, maxList_append]
    exact natMax_left _ _

theorem C8_sizing_monotone_witness :
    (SimplifiedGrammar.mk [Rule.mk [Production.mk []]] [] [] []).expressions
      = [] ++ Rule.mk [Production.mk []] :: [] ∧
    (SimplifiedGrammar.mk [Rule.mk [Production.mk [], Production.mk [FinalNode.Terminal 0]]]
        [] [] []).expressions
      = [] ++ Rule.mk ((Rule.mk [Production.mk []]).alternations
          ++ [Production.mk [FinalNode.Terminal 0]]) :: [] ∧
    find_max_dotted_position_from_ebnf_grammar
        (SimplifiedGrammar.mk [Rule.mk [Production.mk []]] [] [] [])
      < (Production.mk [FinalNode.Terminal 0]).concatenations.length ∧
    (SimplifiedGrammar.mk [Rule.mk [Production.mk []],
        Rule.mk [Production.mk [], Production.mk []]] [] [] []).expressions
      = (SimplifiedGrammar.mk [Rule.mk [Production.mk []]] [] [] []).expressions
          ++ [Rule.mk [Production.mk [], Production.mk []]] ∧
    find_max_production_id_from_ebnf_grammar
        (SimplifiedGrammar.mk [Rule.mk [Production.mk []]] [] [] [])
      < (Rule.mk [Production.mk [], Production.mk []]).alternations.length ∧
    (find_max_dotted_position_from_ebnf_grammar
        (SimplifiedGrammar.mk [Rule.mk [Production.mk []]] [] [] [])
      ≤ find_max_dotted_position_from_ebnf_grammar
        (SimplifiedGrammar.mk [Rule.mk [Production.mk [],
          Production.mk [FinalNode.Terminal 0]]] [] [] []) ∧
    find_max_production_id_from_ebnf_grammar
        (SimplifiedGrammar.mk [Rule.mk [Production.mk []]] [] [] [])
      ≤ find_max_production_id_from_ebnf_grammar
        (SimplifiedGrammar.mk [Rule.mk [Production.mk []],
          Rule.mk [Production.mk [], Production.mk []]] [] [] [])) :=
  ⟨by decide, by decide, by decide, by decide, by decide,
    C8_sizing_monotone
      (SimplifiedGrammar.mk [Rule.mk [Production.mk []]] [] [] [])
      (SimplifiedGrammar.mk [Rule.mk [Production.mk [],
        Production.mk [FinalNode.Terminal 0]]] [] [] [])
      (SimplifiedGrammar.mk [Rule.mk [Production.mk []],
        Rule.mk [Production.mk [], Production.mk []]] [] [] [])
      [] [] (Rule.mk [Production.mk []]) (Production.mk [FinalNode.Terminal 0])
      (Rule.mk [Production.mk [], Production.mk []])
      (by decide) (by decide) (by decide) (by decide) (by decide)⟩

/-- C3: constructing a `Vocabulary` with exactly 2^24 distinct token ids is
a fatal error (modelled as `none`) and with 2^24 − 1 distinct ids it
succeeds: construction succeeds exactly when the number of distinct token
ids is strictly less than 2^24. -/
theorem C3_size_limit_iff (t2i : List (Token × Nat)) (i2t : List (Nat × Token))
    (strs : List (Nat × String)) (hnd : (i2t.map Prod.fst).Nodup) :
    (Vocabulary.new t2i i2t strs).isSome ↔
      (i2t.map Prod.fst).dedup.length < 16777216 := by
  rw [List.dedup_eq_self.mpr hnd, List.length_map]
  unfold Vocabulary.new
  split <;> simp [*]

theorem C3_size_limit_iff_witness :
    (([(0, Token.mk [97])] : List (Nat × Token)).map Prod.fst).Nodup ∧
    ((Vocabulary.new [] [(0, Token.mk [97])] []).isSome ↔
      (([(0, Token.mk [97])] : List (Nat × Token)).map Prod.fst).dedup.length < 16777216) :=
  ⟨by decide, C3_size_limit_iff [] [(0, Token.mk [97])] [] (by decide)⟩

/-- C4: during construction, each non-empty token without the delimiter
byte is emitted into its first-byte bucket's row as the contiguous run:
one delimiter byte `0xFF`, then the id's lowest 3 bytes little-endian, then
the token's own bytes verbatim. -/
theorem C4_contiguous_run (t2i : List (Token × Nat)) (i2t : List (Nat × Token))
    (strs : List (Nat × String)) (v : Vocabulary) (i b : Nat) (t : Token)
    (hv : Vocabulary.new t2i i2t strs = some v)
    (hmem : (i, t) ∈ i2t) (hhead : t.bytes.head? = some b) (hb : b < 256)
    (hsep : TOKEN_SEPARATOR ∉ t.bytes) :
    ∃ pre suf, v.get_normal_tokens_from_first_byte b
      = pre ++ (TOKEN_SEPARATOR :: (i % 256) :: (i / 256 % 256) :: (i / 65536 % 256) ::
          t.bytes) ++ suf := by
  obtain ⟨hv2, -⟩ := new_eq_some hv
  subst hv2
  rw [build_row _ _ _ _ hb, processBucket_fst]
  have hgb : (i, t) ∈ goodTokens (bucketFor i2t b) :=
    goodTokens_mem (bucketFor_mem hmem hhead) hsep
  obtain ⟨l1, l2, hsplit⟩ := List.append_of_mem hgb
  refine ⟨l1.flatMap (fun p => encodeToken p.1 p.2),
          l2.flatMap (fun p => encodeToken p.1 p.2), ?_⟩
  rw [hsplit]
  simp [encodeToken, le3]

theorem C4_contiguous_run_witness :
    Vocabulary.new [] [(5, Token.mk [97, 98])] []
        = some (Vocabulary.build [] [(5, Token.mk [97, 98])] []) ∧
    (5, Token.mk [97, 98]) ∈ [(5, Token.mk [97, 98])] ∧
    (Token.mk [97, 98]).bytes.head? = some 97 ∧ 97 < 256 ∧
    TOKEN_SEPARATOR ∉ (Token.mk [97, 98]).bytes ∧
    ∃ pre suf, (Vocabulary.build [] [(5, Token.mk [97, 98])] []).get_normal_tokens_from_first_byte 97
      = pre ++ (TOKEN_SEPARATOR :: (5 % 256) :: (5 / 256 % 256) :: (5 / 65536 % 256) ::
          (Token.mk [97, 98]).bytes) ++ suf :=
  ⟨rfl, by decide, by decide, by decide, by decide,
    C4_contiguous_run [] [(5, Token.mk [97, 98])] [] (Vocabulary.build [] [(5, Token.mk [97, 98])] [])
      5 97 (Token.mk [97, 98]) rfl (by decide) (by decide) (by decide) (by decide)⟩

set_option maxRecDepth 10000 in
/-- C1 as stated is false: with the vocabulary `{0 ↦ "ab"}`, the
enumeration for first byte `97` yields the pair `(0, [97, 98])` — the
token's FULL bytes — so the (id, remaining-bytes) pair `(0, [98])` appears
zero times, not exactly once. -/
theorem C1_counterexample :
    ((Vocabulary.new [(Token.mk [97, 98], 0)] [(0, Token.mk [97, 98])] [(0, "ab")]).map
      (fun v => (iterRun (v.get_normal_tokens_from_first_byte 97)).map
        (fun items => ((groupTokens items).count (0, [98]),
                       (groupTokens items).count (0, [97, 98])))))
      = some (some (0, 1)) := by decide

/-- C1 (amended): for every first byte `b < 256` and every non-empty token
`t` registered with id `i`, with `t[0] = b` and `t` containing no `0xFF`
byte, and with every registered id below 2^24, the pair of `i` and `t`'s
FULL byte sequence appears exactly once in the grouped output of
`get_normal_tokens_from_first_byte b`, produced by the single pass of the
iterator (which consumes the delimiter and 3 id bytes at each new-token
marker), and every yielded token byte differs from the reserved delimiter
value `0xFF`. -/
theorem C1_first_byte_enumeration (t2i : List (Token × Nat)) (i2t : List (Nat × Token))
    (strs : List (Nat × String)) (v : Vocabulary) (b i : Nat) (t : Token)
    (hv : Vocabulary.new t2i i2t strs = some v)
    (hnd : (i2t.map Prod.fst).Nodup)
    (hids : ∀ p ∈ i2t, p.1 < 16777216)
    (hmem : (i, t) ∈ i2t)
    (hhead : t.bytes.head? = some b) (hb : b < 256)
    (hsep : TOKEN_SEPARATOR ∉ t.bytes) :
    ∃ items, iterRun (v.get_normal_tokens_from_first_byte b) = some items ∧
      (groupTokens items).count (i, t.bytes) = 1 ∧
      ∀ x, TokenIterItem.TokenByte x ∈ items → x ≠ TOKEN_SEPARATOR := by
  obtain ⟨hv2, -⟩ := new_eq_some hv
  subst hv2
  refine ⟨(goodTokens (bucketFor i2t b)).flatMap chainFor,
    decode_row t2i i2t strs b hb, ?_, ?_⟩
  · rw [groupTokens_chain]
    have hmem_gb : (i, t) ∈ goodTokens (bucketFor i2t b) :=
      goodTokens_mem (bucketFor_mem hmem hhead) hsep
    have hsub : List.Sublist (goodTokens (bucketFor i2t b)) i2t := goodBucket_sublist i2t b
    have hid_small : ∀ p ∈ goodTokens (bucketFor i2t b), p.1 < 16777216 :=
      fun p hp => hids p (hsub.subset hp)
    have hcongr : (goodTokens (bucketFor i2t b)).map (fun p => (p.1 % 16777216, p.2.bytes))
        = (goodTokens (bucketFor i2t b)).map (fun p => (p.1, p.2.bytes)) :=
      List.map_congr_left (fun p hp => by simp [Nat.mod_eq_of_lt (hid_small p hp)])
    rw [hcongr]
    have hnd_gb : ((goodTokens (bucketFor i2t b)).map Prod.fst).Nodup :=
      hnd.sublist (hsub.map Prod.fst)
    have hnd_pairs : ((goodTokens (bucketFor i2t b)).map (fun p => (p.1, p.2.bytes))).Nodup := by
      apply List.Nodup.of_map Prod.fst
      rw [List.map_map]
      exact hnd_gb
    exact count_eq_one_of_mem_nodup hnd_pairs
      (List.mem_map.mpr ⟨(i, t), hmem_gb, rfl⟩)
  · intro x hx hx255
    rw [List.mem_flatMap] at hx
    obtain ⟨p, hp, hxp⟩ := hx
    have hsep_p : TOKEN_SEPARATOR ∉ p.2.bytes := (mem_goodTokens hp).2
    simp only [chainFor, List.mem_cons, List.mem_map] at hxp
    rcases hxp with hne | ⟨y, hy, hyx⟩
    · exact absurd hne (by simp)
    · cases hyx
      exact hsep_p (hx255 ▸ hy)

theorem C1_first_byte_enumeration_witness :
    Vocabulary.new [] [(5, Token.mk [97, 98])] []
        = some (Vocabulary.build [] [(5, Token.mk [97, 98])] []) ∧
    (([(5, Token.mk [97, 98])] : List (Nat × Token)).map Prod.fst).Nodup ∧
    (∀ p ∈ ([(5, Token.mk [97, 98])] : List (Nat × Token)), p.1 < 16777216) ∧
    (5, Token.mk [97, 98]) ∈ [(5, Token.mk [97, 98])] ∧
    (Token.mk [97, 98]).bytes.head? = some 97 ∧ 97 < 256 ∧
    TOKEN_SEPARATOR ∉ (Token.mk [97, 98]).bytes ∧
    (∃ items, iterRun ((Vocabulary.build [] [(5, Token.mk [97, 98])]
          []).get_normal_tokens_from_first_byte 97) = some items ∧
      (groupTokens items).count (5, (Token.mk [97, 98]).bytes) = 1 ∧
      ∀ x, TokenIterItem.TokenByte x ∈ items → x ≠ TOKEN_SEPARATOR) :=
  ⟨rfl, by decide, by decide, by decide, by decide, by decide, by decide,
    C1_first_byte_enumeration [] [(5, Token.mk [97, 98])] []
      (Vocabulary.build [] [(5, Token.mk [97, 98])] []) 97 5 (Token.mk [97, 98])
      rfl (by decide) (by decide) (by decide) (by decide) (by decide) (by decide)⟩

/-- C2: every token containing the reserved delimiter byte `0xFF`
(including the token that is exactly the single byte `0xFF`) appears
exactly once, with its id, in `get_tokens_containing_separators`, and its
byte sequence appears in no first-byte enumeration for any byte `b`
(including `b = 0xFF`). -/
theorem C2_separator_tokens (t2i : List (Token × Nat)) (i2t : List (Nat × Token))
    (strs : List (Nat × String)) (v : Vocabulary) (i : Nat) (t : Token)
    (hv : Vocabulary.new t2i i2t strs = some v)
    (hnd : (i2t.map Prod.fst).Nodup)
    (hmem : (i, t) ∈ i2t)
    (hsep : TOKEN_SEPARATOR ∈ t.bytes)
    (hbytes : ∀ x ∈ t.bytes, x < 256) :
    v.get_tokens_containing_separators.count (i, t) = 1 ∧
    ∀ b : Nat, ∀ items, iterRun (v.get_normal_tokens_from_first_byte b) = some items →
      ∀ p ∈ groupTokens items, p.2 ≠ t.bytes := by
  obtain ⟨hv2, -⟩ := new_eq_some hv
  subst hv2
  obtain ⟨b0, rest, hbs⟩ : ∃ b0 rest, t.bytes = b0 :: rest := by
    cases hbytes2 : t.bytes with
    | nil => rw [hbytes2] at hsep; cases hsep
    | cons b0 rest => exact ⟨b0, rest, rfl⟩
  have hhead : t.bytes.head? = some b0 := by rw [hbs]; rfl
  have hb0 : b0 < 256 := hbytes b0 (by rw [hbs]; exact List.mem_cons_self _ _)
  constructor
  · show ((List.range 256).flatMap
        (fun b => (processBucket (bucketFor i2t b)).2)).count (i, t) = 1
    rw [count_flatMap_nat]
    rw [sum_map_range_eq_single _ 256 b0 hb0 ?side]
    case side =>
      intro b hb
      apply List.count_eq_zero.mpr
      intro hmem2
      rw [processBucket_snd] at hmem2
      have := (mem_bucketFor (mem_sepTokens hmem2).1).2
      rw [hhead] at this
      exact hb (Option.some_inj.mp this).symm
    rw [processBucket_snd]
    unfold sepTokens bucketFor
    rw [List.count_filter (by simpa using hsep), List.count_filter (by simpa using hhead)]
    exact count_eq_one_of_mem_nodup (List.Nodup.of_map Prod.fst hnd) hmem
  · intro b items hitems p hp hpt
    by_cases hb : b < 256
    · rw [decode_row t2i i2t strs b hb] at hitems
      cases Option.some_inj.mp hitems
      rw [groupTokens_chain] at hp
      obtain ⟨q, hq, hqp⟩ := List.mem_map.mp hp
      have hsep_q : TOKEN_SEPARATOR ∉ q.2.bytes := (mem_goodTokens hq).2
      apply hsep_q
      have : p.2 = q.2.bytes := by rw [← hqp]
      rw [← this, hpt]
      exact hsep
    · rw [build_row_oob _ _ _ _ (by omega)] at hitems
      cases Option.some_inj.mp hitems
      cases hp

theorem C2_separator_tokens_witness :
    Vocabulary.new [] [(3, Token.mk [255])] []
        = some (Vocabulary.build [] [(3, Token.mk [255])] []) ∧
    (([(3, Token.mk [255])] : List (Nat × Token)).map Prod.fst).Nodup ∧
    (3, Token.mk [255]) ∈ [(3, Token.mk [255])] ∧
    TOKEN_SEPARATOR ∈ (Token.mk [255]).bytes ∧
    (∀ x ∈ (Token.mk [255]).bytes, x < 256) ∧
    ((Vocabulary.build [] [(3, Token.mk [255])]
        []).get_tokens_containing_separators.count (3, Token.mk [255]) = 1 ∧
      ∀ b : Nat, ∀ items, iterRun ((Vocabulary.build [] [(3, Token.mk [255])]
          []).get_normal_tokens_from_first_byte b) = some items →
        ∀ p ∈ groupTokens items, p.2 ≠ (Token.mk [255]).bytes) :=
  ⟨rfl, by decide, by decide, by decide, by decide,
    C2_separator_tokens [] [(3, Token.mk [255])] []
      (Vocabulary.build [] [(3, Token.mk [255])] []) 3 (Token.mk [255])
      rfl (by decide) (by decide) (by decide) (by decide)⟩

/-- C9: `Vocabulary::new` bounds only the number of map entries; a token
registered under an id `i ≥ 2^24` (entry count still below 2^24) is
accepted, but the first-byte enumeration decodes its id as `i % 2^24`,
which differs from the registered id. -/
theorem C9_id_aliasing (t2i : List (Token × Nat)) (i2t : List (Nat × Token))
    (strs : List (Nat × String)) (b i : Nat) (t : Token)
    (hlen : i2t.length < 16777216)
    (hmem : (i, t) ∈ i2t)
    (hhead : t.bytes.head? = some b) (hb : b < 256)
    (hsep : TOKEN_SEPARATOR ∉ t.bytes)
    (hbig : 16777216 ≤ i) :
    ∃ v, Vocabulary.new t2i i2t strs = some v ∧
      ∃ items, iterRun (v.get_normal_tokens_from_first_byte b) = some items ∧
        (i % 16777216, t.bytes) ∈ groupTokens items ∧ i % 16777216 ≠ i := by
  refine ⟨Vocabulary.build t2i i2t strs, by unfold Vocabulary.new; simp [hlen], ?_⟩
  refine ⟨_, decode_row t2i i2t strs b hb, ?_, ?_⟩
  · rw [groupTokens_chain]
    exact List.mem_map.mpr ⟨(i, t), goodTokens_mem (bucketFor_mem hmem hhead) hsep, rfl⟩
  · have : i % 16777216 < 16777216 := Nat.mod_lt _ (by omega)
    omega

theorem C9_id_aliasing_witness :
    ([(16777216, Token.mk [97])] : List (Nat × Token)).length < 16777216 ∧
    (16777216, Token.mk [97]) ∈ [(16777216, Token.mk [97])] ∧
    (Token.mk [97]).bytes.head? = some 97 ∧ 97 < 256 ∧
    TOKEN_SEPARATOR ∉ (Token.mk [97]).bytes ∧ 16777216 ≤ 16777216 ∧
    (∃ v, Vocabulary.new [] [(16777216, Token.mk [97])] [] = some v ∧
      ∃ items, iterRun (v.get_normal_tokens_from_first_byte 97) = some items ∧
        (16777216 % 16777216, (Token.mk [97]).bytes) ∈ groupTokens items ∧
        16777216 % 16777216 ≠ 16777216) :=
  ⟨by decide, by decide, by decide, by decide, by decide, by decide,
    C9_id_aliasing [] [(16777216, Token.mk [97])] [] 97 16777216 (Token.mk [97])
      (by decide) (by decide) (by decide) (by decide) (by decide) (by decide)⟩

/-- C10: for every vocabulary produced by `Vocabulary::new` and every byte
`b`, running `get_normal_tokens_from_first_byte(b)` to exhaustion never
panics: the iterator returns a full item stream (every delimiter is
followed by 3 id bytes), every decoded id is strictly below `u32::MAX`
(so `NonMaxU32::new` succeeds), and every yielded token byte differs from
`0xFF` (the `NonMaxU8` precondition). -/
theorem C10_no_panic (t2i : List (Token × Nat)) (i2t : List (Nat × Token))
    (strs : List (Nat × String)) (v : Vocabulary) (b : Nat)
    (hv : Vocabulary.new t2i i2t strs = some v) :
    ∃ items, iterRun (v.get_normal_tokens_from_first_byte b) = some items ∧
      (∀ j, TokenIterItem.NewToken j ∈ items → j < 4294967295) ∧
      (∀ x, TokenIterItem.TokenByte x ∈ items → x ≠ TOKEN_SEPARATOR) := by
  obtain ⟨hv2, -⟩ := new_eq_some hv
  subst hv2
  by_cases hb : b < 256
  · refine ⟨_, decode_row t2i i2t strs b hb, ?_, ?_⟩
    · intro j hj
      rw [List.mem_flatMap] at hj
      obtain ⟨p, hp, hjp⟩ := hj
      simp only [chainFor, List.mem_cons, List.mem_map] at hjp
      rcases hjp with hje | ⟨y, hy, hyx⟩
      · have : j = p.1 % 16777216 := by
          cases hje
          rfl
        have hlt : p.1 % 16777216 < 16777216 := Nat.mod_lt _ (by omega)
        omega
      · cases hyx
    · intro x hx hx255
      rw [List.mem_flatMap] at hx
      obtain ⟨p, hp, hxp⟩ := hx
      have hsep_p : TOKEN_SEPARATOR ∉ p.2.bytes := (mem_goodTokens hp).2
      simp only [chainFor, List.mem_cons, List.mem_map] at hxp
      rcases hxp with hne | ⟨y, hy, hyx⟩
      · exact absurd hne (by simp)
      · cases hyx
        exact hsep_p (hx255 ▸ hy)
  · refine ⟨[], ?_, by simp, by simp⟩
    rw [build_row_oob _ _ _ _ (by omega)]
    rfl

theorem C10_no_panic_witness :
    Vocabulary.new [] [(0, Token.mk [97]), (1, Token.mk [255, 98])] []
        = some (Vocabulary.build [] [(0, Token.mk [97]), (1, Token.mk [255, 98])] []) ∧
    (∃ items, iterRun ((Vocabulary.build [] [(0, Token.mk [97]), (1, Token.mk [255, 98])]
          []).get_normal_tokens_from_first_byte 255) = some items ∧
      (∀ j, TokenIterItem.NewToken j ∈ items → j < 4294967295) ∧
      (∀ x, TokenIterItem.TokenByte x ∈ items → x ≠ TOKEN_SEPARATOR)) :=
  ⟨rfl,
    C10_no_panic [] [(0, Token.mk [97]), (1, Token.mk [255, 98])] []
      (Vocabulary.build [] [(0, Token.mk [97]), (1, Token.mk [255, 98])] []) 255 rfl⟩

/-- C5: for a token `t` registered with id `i` (present consistently in the
caller-supplied maps), `get_token_id_from_token` returns `some i` and
`get_token_from_token_id` returns `some t`; for an unregistered token or
id, the three lookups return `none` rather than failing. -/
theorem C5_lookup_roundtrip (t2i : List (Token × Nat)) (i2t : List (Nat × Token))
    (strs : List (Nat × String)) (v : Vocabulary) (t : Token) (i : Nat)
    (hv : Vocabulary.new t2i i2t strs = some v)
    (hnd1 : (t2i.map Prod.fst).Nodup) (hnd2 : (i2t.map Prod.fst).Nodup)
    (hti : (t, i) ∈ t2i) (hit : (i, t) ∈ i2t) :
    v.get_token_id_from_token t = some i ∧
    v.get_token_from_token_id i = some t ∧
    (∀ u : Token, u ∉ t2i.map Prod.fst → v.get_token_id_from_token u = none) ∧
    (∀ j : Nat, j ∉ i2t.map Prod.fst → v.get_token_from_token_id j = none) ∧
    (∀ j : Nat, j ∉ strs.map Prod.fst → v.get_token_string_from_token_id j = none) := by
  obtain ⟨hv2, -⟩ := new_eq_some hv
  subst hv2
  exact ⟨lookupList_eq_some_of_mem hnd1 hti,
    lookupList_eq_some_of_mem hnd2 hit,
    fun u hu => lookupList_eq_none_of_not_mem hu,
    fun j hj => lookupList_eq_none_of_not_mem hj,
    fun j hj => lookupList_eq_none_of_not_mem hj⟩

theorem C5_lookup_roundtrip_witness :
    Vocabulary.new [(Token.mk [97], 0)] [(0, Token.mk [97])] [(0, "a")]
        = some (Vocabulary.build [(Token.mk [97], 0)] [(0, Token.mk [97])] [(0, "a")]) ∧
    (([(Token.mk [97], 0)] : List (Token × Nat)).map Prod.fst).Nodup ∧
    (([(0, Token.mk [97])] : List (Nat × Token)).map Prod.fst).Nodup ∧
    (Token.mk [97], 0) ∈ [(Token.mk [97], 0)] ∧
    (0, Token.mk [97]) ∈ [(0, Token.mk [97])] ∧
    ((Vocabulary.build [(Token.mk [97], 0)] [(0, Token.mk [97])] [(0, "a")]).get_token_id_from_token
        (Token.mk [97]) = some 0 ∧
      (Vocabulary.build [(Token.mk [97], 0)] [(0, Token.mk [97])] [(0, "a")]).get_token_from_token_id
        0 = some (Token.mk [97]) ∧
      (∀ u : Token, u ∉ ([(Token.mk [97], 0)] : List (Token × Nat)).map Prod.fst →
        (Vocabulary.build [(Token.mk [97], 0)] [(0, Token.mk [97])] [(0, "a")]).get_token_id_from_token
          u = none) ∧
      (∀ j : Nat, j ∉ ([(0, Token.mk [97])] : List (Nat × Token)).map Prod.fst →
        (Vocabulary.build [(Token.mk [97], 0)] [(0, Token.mk [97])] [(0, "a")]).get_token_from_token_id
          j = none) ∧
      (∀ j : Nat, j ∉ ([(0, "a")] : List (Nat × String)).map Prod.fst →
        (Vocabulary.build [(Token.mk [97], 0)] [(0, Token.mk [97])] [(0, "a")]).get_token_string_from_token_id
          j = none)) :=
  ⟨rfl, by decide, by decide, by decide, by decide,
    C5_lookup_roundtrip [(Token.mk [97], 0)] [(0, Token.mk [97])] [(0, "a")]
      (Vocabulary.build [(Token.mk [97], 0)] [(0, Token.mk [97])] [(0, "a")])
      (Token.mk [97]) 0 rfl (by decide) (by decide) (by decide) (by decide)⟩
